import Mathlib

/-!
Shallow embedding of the `derefable` derive macro (`src/derefable/src/lib.rs`).

The crate exposes one function, `impl_derefable`, that receives a parsed
`syn::DeriveInput` and either panics with a diagnostic message or emits a
`std::ops::Deref` implementation (and, when requested, a `std::ops::DerefMut`
implementation) for the struct.  We model the fragment of the `syn` input
grammar the function inspects, the scan over the fields and their attributes,
panics as `Except.error` values of an error-kind enumeration, and the emitted
token stream structurally: the emitted code is determined by the struct name,
the target type and the accessor path, plus the presence of the mutable impl.
-/

namespace Derefable

/-- Panic messages of `impl_derefable`, as error kinds (spec section 7). -/
inductive DerefError where
  | UnsupportedTypeKind
  | NoFieldsToDeref
  | MultipleDerefFields
  | NoDerefFieldSpecified
deriving DecidableEq, Repr

mutual
/-- Model of `syn::Meta` as produced by `Attribute::parse_meta`:
a bare word, a list `ident(nested, ...)`, or a name-value pair. -/
inductive Meta where
  | word (ident : String)
  | list (ident : String) (nested : List NestedMeta)
  | nameValue (ident : String) (lit : String)

/-- Model of `syn::NestedMeta`: a nested meta item or a literal. -/
inductive NestedMeta where
  | meta (m : Meta)
  | literal (lit : String)
end

/-- Model of `syn::Attribute`, abstracted to the result of `parse_meta()`:
either it parses to a `Meta`, or parsing fails (the code skips it). -/
inductive Attribute where
  | meta (m : Meta)
  | unparsed

/-- Model of `syn::Field`: its attributes, optional name, and declared type.
The type is kept abstract as its token text. -/
structure Field where
  attrs : List Attribute
  ident : Option String
  ty : String

/-- Model of `syn::Fields`: named fields, unnamed (tuple) fields, or unit. -/
inductive Fields where
  | named (fs : List Field)
  | unnamed (fs : List Field)
  | unit

/-- Model of `syn::Data`: struct, enum or union. -/
inductive Data where
  | struct (fields : Fields)
  | enum
  | union

/-- Model of `syn::DeriveInput`: the type name and its data. -/
structure DeriveInput where
  ident : String
  data : Data

/-- The field list iterated by `data.fields.iter()`. -/
def Fields.toList : Fields → List Field
  | .named fs => fs
  | .unnamed fs => fs
  | .unit => []

/-- The accessor path emitted in `&self.#ident`: the field name when the field
is named, else the positional `Index`. -/
inductive Accessor where
  | name (n : String)
  | index (i : Nat)
deriving DecidableEq, Repr

/-- One emitted trait implementation: `impl std::ops::Deref[Mut] for #name`
with target type `#target` and body `&[mut] self.#ident`.  These three pieces
are exactly the data interpolated into the `quote!` templates. -/
structure DerefImpl where
  selfName : String
  target : String
  accessor : Accessor
deriving DecidableEq, Repr

/-- The emitted token stream, structurally: the `Deref` impl always, and the
`DerefMut` impl when the field was marked mutable. -/
structure Generated where
  derefImpl : DerefImpl
  derefMutImpl : Option DerefImpl
deriving DecidableEq, Repr

/-- The mutable state of the scan loop: `deref_field` and `is_field_mutable`. -/
structure ScanState where
  deref_field : Option (Field × Nat)
  is_field_mutable : Bool

/-- The predicate applied to each nested item of `#[deref(...)]`:
`NestedMeta::Meta(Meta::Word(ident))` with `ident == "mutable"`. -/
def isMutableNested : NestedMeta → Bool
  | .meta (.word id) => id == "mutable"
  | _ => false

/-- One iteration of the inner attribute loop of `impl_derefable`.  `i` is the
enumeration index of the current field (stored truncated to `u32`), `field` the
current field.  A recognized marker either records the field or panics with
`MultipleDerefFields`; everything else leaves the state unchanged. -/
def stepAttr (i : Nat) (field : Field) (st : ScanState) : Attribute → Except DerefError ScanState
  | .unparsed => .ok st
  | .meta m =>
    match m with
    | .word id =>
      if id == "deref" then
        if st.deref_field.isNone then
          .ok { st with deref_field := some (field, i % 4294967296) }
        else
          .error .MultipleDerefFields
      else
        .ok st
    | .list id nested =>
      if id == "deref" then
        if st.deref_field.isNone then
          .ok { deref_field := some (field, i % 4294967296),
                is_field_mutable := nested.any isMutableNested }
        else
          .error .MultipleDerefFields
      else
        .ok st
    | .nameValue _ _ => .ok st

/-- The inner loop `for attribute in &field.attrs`. -/
def scanAttrs (i : Nat) (field : Field) : ScanState → List Attribute → Except DerefError ScanState
  | st, [] => .ok st
  | st, a :: rest =>
    match stepAttr i field st a with
    | .ok st' => scanAttrs i field st' rest
    | .error e => .error e

/-- The outer loop `for (i, field) in data.fields.iter().enumerate()`. -/
def scanFields : Nat → ScanState → List Field → Except DerefError ScanState
  | _, st, [] => .ok st
  | i, st, f :: rest =>
    match scanAttrs i f st f.attrs with
    | .ok st' => scanFields (i + 1) st' rest
    | .error e => .error e

/-- The accessor chosen at the end of `impl_derefable`:
`field.ident.map(Ident::into_token_stream).unwrap_or_else(|| Index { index, .. })`. -/
def mkAccessor (field : Field) (index : Nat) : Accessor :=
  match field.ident with
  | some n => .name n
  | none => .index index

/-- The whole of `impl_derefable` (`src/derefable/src/lib.rs`, lines 61-191):
reject non-structs, reject unit structs, scan the fields for `#[deref]` /
`#[deref(...)]` markers, reject zero or multiple markers, and emit the
`Deref` impl plus the conditional `DerefMut` impl for the selected field. -/
def impl_derefable (ast : DeriveInput) : Except DerefError Generated :=
  match ast.data with
  | .struct data =>
    match data with
    | .unit => .error .NoFieldsToDeref
    | _ =>
      match scanFields 0 ⟨none, false⟩ data.toList with
      | .error e => .error e
      | .ok st =>
        match st.deref_field with
        | none => .error .NoDerefFieldSpecified
        | some (field, index) =>
          let target := field.ty
          let accessor := mkAccessor field index
          let derefImpl : DerefImpl := ⟨ast.ident, target, accessor⟩
          .ok { derefImpl := derefImpl,
                derefMutImpl := if st.is_field_mutable then some derefImpl else none }
  | _ => .error .UnsupportedTypeKind

/-- An attribute is a recognized deref marker when its meta parses to
`Meta::Word("deref")` or `Meta::List { ident: "deref", .. }`. -/
def Attribute.isMarker : Attribute → Bool
  | .meta (.word id) => id == "deref"
  | .meta (.list id _) => id == "deref"
  | _ => false

/-- Number of recognized markers in an attribute list. -/
def countMarkers (attrs : List Attribute) : Nat :=
  (attrs.filter Attribute.isMarker).length

/-- Number of recognized markers on a field. -/
def Field.markerCount (f : Field) : Nat := countMarkers f.attrs

/-- Total number of recognized markers over a field list. -/
def markerTotal (fs : List Field) : Nat := (fs.map Field.markerCount).sum

/-- A marker enables mutability exactly when it is the list form whose nested
items contain the word `mutable`. -/
def isMutableMarker : Attribute → Bool
  | .meta (.list id nested) => id == "deref" && nested.any isMutableNested
  | _ => false

/-- The value `is_field_mutable` holds after processing a recognized marker:
the list form overwrites it with its nested scan, every other attribute leaves
it unchanged. -/
def newMutable (st : ScanState) : Attribute → Bool
  | .meta (.list _ nested) => nested.any isMutableNested
  | _ => st.is_field_mutable

/-- The part of a field the emitted code depends on: its name and its type. -/
def Field.core (f : Field) : Option String × String := (f.ident, f.ty)

/-- The part of the scan state the emitted code depends on: the selected
field's core and index, and the mutability flag. -/
def stateCore (st : ScanState) : Option ((Option String × String) × Nat) × Bool :=
  (st.deref_field.map (fun p => (p.1.core, p.2)), st.is_field_mutable)

/-- Two fields that differ only in attributes that are not recognized deref
markers: same name, same type, same sequence of recognized markers. -/
def Field.similar (f g : Field) : Prop :=
  f.ident = g.ident ∧ f.ty = g.ty ∧
    f.attrs.filter Attribute.isMarker = g.attrs.filter Attribute.isMarker

/-- Two field lists of the same shape whose fields differ only in
non-marker attributes. -/
def Fields.similar : Fields → Fields → Prop
  | .named fs, .named gs => List.Forall₂ Field.similar fs gs
  | .unnamed fs, .unnamed gs => List.Forall₂ Field.similar fs gs
  | .unit, .unit => True
  | _, _ => False

/-- Two data bodies that differ only in non-marker field attributes. -/
def Data.similar : Data → Data → Prop
  | .struct f₁, .struct f₂ => Fields.similar f₁ f₂
  | .enum, .enum => True
  | .union, .union => True
  | _, _ => False

/-! ### Basic lemmas about the scan -/

theorem markerCount_def (f : Field) : f.markerCount = countMarkers f.attrs := rfl

theorem countMarkers_nil : countMarkers [] = 0 := rfl

theorem countMarkers_cons (a : Attribute) (rest : List Attribute) :
    countMarkers (a :: rest) =
      (if Attribute.isMarker a then 1 else 0) + countMarkers rest := by
  simp only [countMarkers, List.filter_cons]
  split
  · simp [Nat.add_comm]
  · simp

theorem markerTotal_nil : markerTotal [] = 0 := rfl

theorem markerTotal_cons (f : Field) (fs : List Field) :
    markerTotal (f :: fs) = countMarkers f.attrs + markerTotal fs := by
  simp [markerTotal, Field.markerCount]

theorem markerTotal_append (u v : List Field) :
    markerTotal (u ++ v) = markerTotal u + markerTotal v := by
  simp [markerTotal]

theorem stepAttr_nonmarker (i : Nat) (f : Field) (st : ScanState) (a : Attribute)
    (h : Attribute.isMarker a = false) : stepAttr i f st a = .ok st := by
  cases a with
  | unparsed => rfl
  | meta m =>
    cases m with
    | word id =>
      simp only [Attribute.isMarker] at h
      simp [stepAttr, h]
    | list id nested =>
      simp only [Attribute.isMarker] at h
      simp [stepAttr, h]
    | nameValue id lit => rfl

theorem stepAttr_marker_some (i : Nat) (f : Field) (st : ScanState) (p : Field × Nat)
    (a : Attribute) (hst : st.deref_field = some p) (ha : Attribute.isMarker a = true) :
    stepAttr i f st a = .error .MultipleDerefFields := by
  cases a with
  | unparsed => simp [Attribute.isMarker] at ha
  | meta m =>
    cases m with
    | word id =>
      simp only [Attribute.isMarker] at ha
      simp [stepAttr, ha, hst]
    | list id nested =>
      simp only [Attribute.isMarker] at ha
      simp [stepAttr, ha, hst]
    | nameValue id lit => simp [Attribute.isMarker] at ha

theorem stepAttr_marker_none (i : Nat) (f : Field) (st : ScanState) (a : Attribute)
    (hst : st.deref_field = none) (ha : Attribute.isMarker a = true) :
    stepAttr i f st a = .ok ⟨some (f, i % 4294967296), newMutable st a⟩ := by
  obtain ⟨df, mt⟩ := st
  simp only at hst
  subst hst
  cases a with
  | unparsed => simp [Attribute.isMarker] at ha
  | meta m =>
    cases m with
    | word id =>
      simp only [Attribute.isMarker] at ha
      simp [stepAttr, ha, newMutable]
    | list id nested =>
      simp only [Attribute.isMarker] at ha
      simp [stepAttr, ha, newMutable]
    | nameValue id lit => simp [Attribute.isMarker] at ha

theorem exists_first_marker (attrs : List Attribute) (h : 0 < countMarkers attrs) :
    ∃ u a v, attrs = u ++ a :: v ∧ countMarkers u = 0 ∧ Attribute.isMarker a = true ∧
      countMarkers v + 1 = countMarkers attrs := by
  induction attrs with
  | nil => simp [countMarkers_nil] at h
  | cons b rest ih =>
    cases hb : Attribute.isMarker b with
    | true =>
      refine ⟨[], b, rest, rfl, rfl, hb, ?_⟩
      rw [countMarkers_cons, hb]
      simp [Nat.add_comm]
    | false =>
      have h' : 0 < countMarkers rest := by
        rw [countMarkers_cons, hb] at h
        simpa using h
      obtain ⟨u, a, v, hsplit, hu, ha, hv⟩ := ih h'
      refine ⟨b :: u, a, v, by rw [hsplit, List.cons_append], ?_, ha, ?_⟩
      · rw [countMarkers_cons, hb, hu]
        simp
      · rw [countMarkers_cons, hb]
        simpa using hv

/-! ### Lemmas about the inner attribute loop -/

theorem scanAttrs_no_marker (i : Nat) (f : Field) (st : ScanState) (attrs : List Attribute)
    (h : countMarkers attrs = 0) : scanAttrs i f st attrs = .ok st := by
  induction attrs generalizing st with
  | nil => rfl
  | cons a rest ih =>
    rw [countMarkers_cons] at h
    have ha : Attribute.isMarker a = false := by
      cases hm : Attribute.isMarker a
      · rfl
      · rw [hm] at h
        simp at h
    rw [ha] at h
    simp only [if_neg Bool.false_ne_true, Nat.zero_add] at h
    simp only [scanAttrs, stepAttr_nonmarker i f st a ha]
    exact ih st h

theorem scanAttrs_append_no_marker (i : Nat) (f : Field) (st : ScanState)
    (u rest : List Attribute) (hu : countMarkers u = 0) :
    scanAttrs i f st (u ++ rest) = scanAttrs i f st rest := by
  induction u generalizing st with
  | nil => rfl
  | cons a u ih =>
    rw [countMarkers_cons] at hu
    have ha : Attribute.isMarker a = false := by
      cases hm : Attribute.isMarker a
      · rfl
      · rw [hm] at hu
        simp at hu
    rw [ha] at hu
    simp only [if_neg Bool.false_ne_true, Nat.zero_add] at hu
    simp only [List.cons_append, scanAttrs, stepAttr_nonmarker i f st a ha]
    exact ih st hu

theorem scanAttrs_marker_some (i : Nat) (f : Field) (st : ScanState) (p : Field × Nat)
    (attrs : List Attribute) (hst : st.deref_field = some p) (h : 0 < countMarkers attrs) :
    scanAttrs i f st attrs = .error .MultipleDerefFields := by
  obtain ⟨u, a, v, hsplit, hu, ha, hv⟩ := exists_first_marker attrs h
  subst hsplit
  rw [scanAttrs_append_no_marker i f st u (a :: v) hu]
  simp only [scanAttrs, stepAttr_marker_some i f st p a hst ha]

theorem scanAttrs_one_marker (i : Nat) (f : Field) (st : ScanState)
    (u v : List Attribute) (a : Attribute) (hst : st.deref_field = none)
    (hu : countMarkers u = 0) (ha : Attribute.isMarker a = true) (hv : countMarkers v = 0) :
    scanAttrs i f st (u ++ a :: v) = .ok ⟨some (f, i % 4294967296), newMutable st a⟩ := by
  rw [scanAttrs_append_no_marker i f st u (a :: v) hu]
  simp only [scanAttrs, stepAttr_marker_none i f st a hst ha]
  exact scanAttrs_no_marker i f _ v hv

theorem scanAttrs_two_markers (i : Nat) (f : Field) (st : ScanState)
    (attrs : List Attribute) (hst : st.deref_field = none) (h : 2 ≤ countMarkers attrs) :
    scanAttrs i f st attrs = .error .MultipleDerefFields := by
  obtain ⟨u, a, v, hsplit, hu, ha, hv⟩ := exists_first_marker attrs (by omega)
  subst hsplit
  rw [scanAttrs_append_no_marker i f st u (a :: v) hu]
  simp only [scanAttrs, stepAttr_marker_none i f st a hst ha]
  exact scanAttrs_marker_some i f _ (f, i % 4294967296) v rfl (by omega)

/-! ### Lemmas about the outer field loop -/

theorem scanFields_no_marker (i : Nat) (st : ScanState) (fs : List Field)
    (h : markerTotal fs = 0) : scanFields i st fs = .ok st := by
  induction fs generalizing i st with
  | nil => rfl
  | cons f rest ih =>
    rw [markerTotal_cons] at h
    have hf : countMarkers f.attrs = 0 := by omega
    have hrest : markerTotal rest = 0 := by omega
    simp only [scanFields, scanAttrs_no_marker i f st f.attrs hf]
    exact ih (i + 1) st hrest

theorem scanFields_append_no_marker (i : Nat) (st : ScanState) (u rest : List Field)
    (hu : markerTotal u = 0) :
    scanFields i st (u ++ rest) = scanFields (i + u.length) st rest := by
  induction u generalizing i st with
  | nil => simp
  | cons f u ih =>
    rw [markerTotal_cons] at hu
    have hf : countMarkers f.attrs = 0 := by omega
    have hu' : markerTotal u = 0 := by omega
    simp only [List.cons_append, scanFields, scanAttrs_no_marker i f st f.attrs hf]
    rw [show u.append rest = u ++ rest from rfl, ih (i + 1) st hu']
    congr 1
    simp [List.length_cons]
    omega

theorem scanFields_marker_some (i : Nat) (st : ScanState) (p : Field × Nat)
    (fs : List Field) (hst : st.deref_field = some p) (h : 0 < markerTotal fs) :
    scanFields i st fs = .error .MultipleDerefFields := by
  induction fs generalizing i st with
  | nil => simp [markerTotal_nil] at h
  | cons f rest ih =>
    rw [markerTotal_cons] at h
    rcases Nat.eq_zero_or_pos (countMarkers f.attrs) with hf | hf
    · simp only [scanFields, scanAttrs_no_marker i f st f.attrs hf]
      exact ih (i + 1) st hst (by omega)
    · simp only [scanFields, scanAttrs_marker_some i f st p f.attrs hst hf]

theorem scanFields_two_markers (i : Nat) (st : ScanState) (fs : List Field)
    (hst : st.deref_field = none) (h : 2 ≤ markerTotal fs) :
    scanFields i st fs = .error .MultipleDerefFields := by
  induction fs generalizing i st with
  | nil => simp [markerTotal_nil] at h
  | cons f rest ih =>
    rw [markerTotal_cons] at h
    rcases Nat.lt_or_ge (countMarkers f.attrs) 1 with hf | hf
    · have hf0 : countMarkers f.attrs = 0 := by omega
      simp only [scanFields, scanAttrs_no_marker i f st f.attrs hf0]
      exact ih (i + 1) st hst (by omega)
    · rcases Nat.lt_or_ge (countMarkers f.attrs) 2 with hf2 | hf2
      · obtain ⟨u, a, v, hsplit, hu, ha, hv⟩ := exists_first_marker f.attrs (by omega)
        have hv0 : countMarkers v = 0 := by omega
        have hscan : scanAttrs i f st f.attrs =
            .ok ⟨some (f, i % 4294967296), newMutable st a⟩ := by
          rw [hsplit]
          exact scanAttrs_one_marker i f st u v a hst hu ha hv0
        simp only [scanFields, hscan]
        exact scanFields_marker_some (i + 1) _ (f, i % 4294967296) rest rfl (by omega)
      · simp only [scanFields, scanAttrs_two_markers i f st f.attrs hst hf2]

theorem scanFields_one_marker (i : Nat) (st : ScanState) (pre post : List Field)
    (f : Field) (u v : List Attribute) (a : Attribute)
    (hst : st.deref_field = none) (hpre : markerTotal pre = 0) (hpost : markerTotal post = 0)
    (hattrs : f.attrs = u ++ a :: v)
    (hu : countMarkers u = 0) (ha : Attribute.isMarker a = true) (hv : countMarkers v = 0) :
    scanFields i st (pre ++ f :: post) =
      .ok ⟨some (f, (i + pre.length) % 4294967296), newMutable st a⟩ := by
  rw [scanFields_append_no_marker i st pre (f :: post) hpre]
  have hscan : scanAttrs (i + pre.length) f st f.attrs =
      .ok ⟨some (f, (i + pre.length) % 4294967296), newMutable st a⟩ := by
    rw [hattrs]
    exact scanAttrs_one_marker (i + pre.length) f st u v a hst hu ha hv
  simp only [scanFields, hscan]
  exact scanFields_no_marker (i + pre.length + 1) _ post hpost

/-! ### Lemmas about the whole processor -/

theorem impl_derefable_go (name : String) (flds : Fields) (h : flds ≠ .unit) :
    impl_derefable ⟨name, .struct flds⟩ =
      match scanFields 0 ⟨none, false⟩ flds.toList with
      | .error e => .error e
      | .ok st =>
        match st.deref_field with
        | none => .error .NoDerefFieldSpecified
        | some (field, index) =>
          .ok { derefImpl := ⟨name, field.ty, mkAccessor field index⟩,
                derefMutImpl :=
                  if st.is_field_mutable then
                    some ⟨name, field.ty, mkAccessor field index⟩
                  else none } := by
  cases flds with
  | unit => exact absurd rfl h
  | named fs => rfl
  | unnamed fs => rfl

theorem toList_ne_unit (flds : Fields) (pre post : List Field) (f : Field)
    (hshape : flds.toList = pre ++ f :: post) : flds ≠ .unit := by
  intro hEq
  subst hEq
  have hl := congrArg List.length hshape
  simp [Fields.toList] at hl
  omega

theorem newMutable_init (a : Attribute) (ha : Attribute.isMarker a = true) :
    newMutable ⟨none, false⟩ a = isMutableMarker a := by
  cases a with
  | unparsed => simp [Attribute.isMarker] at ha
  | meta m =>
    cases m with
    | word id => simp [newMutable, isMutableMarker]
    | list id nested =>
      simp only [Attribute.isMarker] at ha
      simp [newMutable, isMutableMarker, ha]
    | nameValue id lit => simp [Attribute.isMarker] at ha

theorem impl_derefable_success (name : String) (flds : Fields) (pre post : List Field)
    (f : Field) (u v : List Attribute) (a : Attribute)
    (hshape : flds.toList = pre ++ f :: post)
    (hpre : markerTotal pre = 0) (hpost : markerTotal post = 0)
    (hattrs : f.attrs = u ++ a :: v)
    (hu : countMarkers u = 0) (ha : Attribute.isMarker a = true) (hv : countMarkers v = 0) :
    impl_derefable ⟨name, .struct flds⟩ =
      .ok { derefImpl := ⟨name, f.ty, mkAccessor f (pre.length % 4294967296)⟩,
            derefMutImpl :=
              if isMutableMarker a then
                some ⟨name, f.ty, mkAccessor f (pre.length % 4294967296)⟩
              else none } := by
  rw [impl_derefable_go name flds (toList_ne_unit flds pre post f hshape), hshape]
  rw [scanFields_one_marker 0 ⟨none, false⟩ pre post f u v a rfl hpre hpost hattrs hu ha hv]
  rw [newMutable_init a ha]
  simp

/-! ### Claim theorems -/

/-- C1: for every struct declaration in which exactly one field carries a
recognized deref marker (one marker occurrence in total: the field list splits
as `pre ++ f :: post` with the single marker `a` on `f`), processing succeeds
and the emitted read-only `Deref` impl is for the struct, with target type the
marked field's declared type, accessed by the field's name when named and by
its positional index when positional (`mkAccessor`). -/
theorem single_marker_readonly_deref (name : String) (flds : Fields)
    (pre post : List Field) (f : Field) (u v : List Attribute) (a : Attribute)
    (hshape : flds.toList = pre ++ f :: post)
    (hpre : markerTotal pre = 0) (hpost : markerTotal post = 0)
    (hattrs : f.attrs = u ++ a :: v)
    (hu : countMarkers u = 0) (ha : Attribute.isMarker a = true) (hv : countMarkers v = 0) :
    (impl_derefable ⟨name, .struct flds⟩).map Generated.derefImpl =
      .ok ⟨name, f.ty, mkAccessor f (pre.length % 4294967296)⟩ := by
  rw [impl_derefable_success name flds pre post f u v a hshape hpre hpost hattrs hu ha hv]
  rfl

theorem single_marker_readonly_deref_witness :
    (impl_derefable ⟨"Foo", .struct (.named
        [⟨[.meta (.word "deref")], some "bar", "u32"⟩])⟩).map Generated.derefImpl =
      .ok ⟨"Foo", "u32", .name "bar"⟩ :=
  single_marker_readonly_deref "Foo" (.named [⟨[.meta (.word "deref")], some "bar", "u32"⟩])
    [] [] ⟨[.meta (.word "deref")], some "bar", "u32"⟩ [] [] (.meta (.word "deref"))
    rfl rfl rfl rfl rfl rfl rfl

/-- C2: under the same single-marker hypotheses as C1, the emitted `DerefMut`
impl is present exactly when the marker is the list form whose nested items
contain the word `mutable` (`isMutableMarker`); in particular the bare form
emits no mutable impl. -/
theorem single_marker_mutable_iff (name : String) (flds : Fields)
    (pre post : List Field) (f : Field) (u v : List Attribute) (a : Attribute)
    (hshape : flds.toList = pre ++ f :: post)
    (hpre : markerTotal pre = 0) (hpost : markerTotal post = 0)
    (hattrs : f.attrs = u ++ a :: v)
    (hu : countMarkers u = 0) (ha : Attribute.isMarker a = true) (hv : countMarkers v = 0) :
    (impl_derefable ⟨name, .struct flds⟩).map Generated.derefMutImpl =
      .ok (if isMutableMarker a then
             some ⟨name, f.ty, mkAccessor f (pre.length % 4294967296)⟩
           else none) := by
  rw [impl_derefable_success name flds pre post f u v a hshape hpre hpost hattrs hu ha hv]
  rfl

theorem single_marker_mutable_iff_witness :
    (impl_derefable ⟨"Mut", .struct (.named
        [⟨[.meta (.list "deref" [.meta (.word "mutable")])], some "num", "u32"⟩])⟩).map
        Generated.derefMutImpl =
      .ok (some ⟨"Mut", "u32", .name "num"⟩) ∧
    (impl_derefable ⟨"Foo", .struct (.named
        [⟨[.meta (.word "deref")], some "bar", "u32"⟩])⟩).map Generated.derefMutImpl =
      .ok none :=
  ⟨single_marker_mutable_iff "Mut"
      (.named [⟨[.meta (.list "deref" [.meta (.word "mutable")])], some "num", "u32"⟩])
      [] [] ⟨[.meta (.list "deref" [.meta (.word "mutable")])], some "num", "u32"⟩ [] []
      (.meta (.list "deref" [.meta (.word "mutable")])) rfl rfl rfl rfl rfl rfl rfl,
   single_marker_mutable_iff "Foo"
      (.named [⟨[.meta (.word "deref")], some "bar", "u32"⟩])
      [] [] ⟨[.meta (.word "deref")], some "bar", "u32"⟩ [] [] (.meta (.word "deref"))
      rfl rfl rfl rfl rfl rfl rfl⟩

/-- C3: whenever a second distinct field carrying a recognized marker is
reached (the field list splits as `pre ++ g :: post` with at least one marker
in `pre` and at least one on `g`), processing fails with `MultipleDerefFields`
and emits nothing; `post` is universally quantified, so the outcome is fixed
as soon as the second marked field is encountered, independently of every
later field. -/
theorem second_marked_field_errors (name : String) (flds : Fields)
    (pre : List Field) (g : Field) (post : List Field)
    (hshape : flds.toList = pre ++ g :: post)
    (hpre : 0 < markerTotal pre) (hg : 0 < g.markerCount) :
    impl_derefable ⟨name, .struct flds⟩ = .error .MultipleDerefFields := by
  rw [impl_derefable_go name flds (toList_ne_unit flds pre post g hshape), hshape]
  rw [scanFields_two_markers 0 ⟨none, false⟩ (pre ++ g :: post) rfl
    (by rw [markerTotal_append, markerTotal_cons]; rw [markerCount_def] at hg; omega)]

theorem second_marked_field_errors_witness :
    impl_derefable ⟨"Two", .struct (.named
        [⟨[.meta (.word "deref")], some "a", "u32"⟩,
         ⟨[.meta (.word "deref")], some "b", "u8"⟩])⟩ =
      .error .MultipleDerefFields :=
  second_marked_field_errors "Two"
    (.named [⟨[.meta (.word "deref")], some "a", "u32"⟩,
             ⟨[.meta (.word "deref")], some "b", "u8"⟩])
    [⟨[.meta (.word "deref")], some "a", "u32"⟩]
    ⟨[.meta (.word "deref")], some "b", "u8"⟩ [] rfl (by decide) (by decide)

/-- C4 (amended): only the unit form of a zero-field struct fails with
`NoFieldsToDeref`; the empty-braced and empty-tuple forms (zero fields, but
`Fields.named []` / `Fields.unnamed []`) complete the scan with no candidate
and fail with `NoDerefFieldSpecified` instead. -/
theorem zero_fields_error_kinds (name : String) :
    impl_derefable ⟨name, .struct .unit⟩ = .error .NoFieldsToDeref ∧
    impl_derefable ⟨name, .struct (.named [])⟩ = .error .NoDerefFieldSpecified ∧
    impl_derefable ⟨name, .struct (.unnamed [])⟩ = .error .NoDerefFieldSpecified :=
  ⟨rfl, rfl, rfl⟩

/-- C4 counterexample: the empty-braced form `struct S {}` does not fail with
`NoFieldsToDeref`, contrary to the claim (it fails with
`NoDerefFieldSpecified`). -/
theorem zero_fields_claim_cex :
    impl_derefable ⟨"S", .struct (.named [])⟩ ≠ .error .NoFieldsToDeref := by
  intro h
  simp [impl_derefable, scanFields] at h

/-- C5: every declaration that is not a struct (enum or union) fails with
`UnsupportedTypeKind` and emits nothing. -/
theorem non_struct_unsupported (name : String) (d : Data)
    (h : ∀ flds, d ≠ .struct flds) :
    impl_derefable ⟨name, d⟩ = .error .UnsupportedTypeKind := by
  cases d with
  | struct flds => exact absurd rfl (h flds)
  | enum => rfl
  | union => rfl

theorem non_struct_unsupported_witness :
    impl_derefable ⟨"E", .enum⟩ = .error .UnsupportedTypeKind :=
  non_struct_unsupported "E" .enum (fun _ h => nomatch h)

/-- C6: a struct with at least one field none of which carries a recognized
marker completes the scan with no candidate and fails with
`NoDerefFieldSpecified`, emitting nothing. -/
theorem no_marker_error (name : String) (flds : Fields)
    (hlen : 0 < flds.toList.length) (h : markerTotal flds.toList = 0) :
    impl_derefable ⟨name, .struct flds⟩ = .error .NoDerefFieldSpecified := by
  have hne : flds ≠ .unit := by
    intro hEq
    subst hEq
    simp [Fields.toList] at hlen
  rw [impl_derefable_go name flds hne]
  rw [scanFields_no_marker 0 ⟨none, false⟩ flds.toList h]

theorem no_marker_error_witness :
    impl_derefable ⟨"Plain", .struct (.named [⟨[], some "x", "u8"⟩])⟩ =
      .error .NoDerefFieldSpecified :=
  no_marker_error "Plain" (.named [⟨[], some "x", "u8"⟩]) (by decide) rfl

/-- C7: a single marker in the list form with arbitrary nested content still
selects the field and never fails on account of that content; unrecognized
nested items are ignored and the mutable impl is emitted exactly when the word
`mutable` occurs among the nested items. -/
theorem list_marker_permissive (name : String) (flds : Fields)
    (pre post : List Field) (f : Field) (u v : List Attribute)
    (nested : List NestedMeta)
    (hshape : flds.toList = pre ++ f :: post)
    (hpre : markerTotal pre = 0) (hpost : markerTotal post = 0)
    (hattrs : f.attrs = u ++ .meta (.list "deref" nested) :: v)
    (hu : countMarkers u = 0) (hv : countMarkers v = 0) :
    impl_derefable ⟨name, .struct flds⟩ =
      .ok { derefImpl := ⟨name, f.ty, mkAccessor f (pre.length % 4294967296)⟩,
            derefMutImpl :=
              if nested.any isMutableNested then
                some ⟨name, f.ty, mkAccessor f (pre.length % 4294967296)⟩
              else none } := by
  rw [impl_derefable_success name flds pre post f u v (.meta (.list "deref" nested))
    hshape hpre hpost hattrs hu (by simp [Attribute.isMarker]) hv]
  simp [isMutableMarker]

theorem list_marker_permissive_witness :
    impl_derefable ⟨"P", .struct (.named
        [⟨[.meta (.list "deref" [.meta (.word "foo"), .literal "7",
            .meta (.word "mutable")])], some "x", "u8"⟩])⟩ =
      .ok { derefImpl := ⟨"P", "u8", .name "x"⟩,
            derefMutImpl := some ⟨"P", "u8", .name "x"⟩ } := by
  have h := list_marker_permissive "P"
    (.named [⟨[.meta (.list "deref" [.meta (.word "foo"), .literal "7",
        .meta (.word "mutable")])], some "x", "u8"⟩])
    [] [] ⟨[.meta (.list "deref" [.meta (.word "foo"), .literal "7",
        .meta (.word "mutable")])], some "x", "u8"⟩ [] []
    [.meta (.word "foo"), .literal "7", .meta (.word "mutable")]
    rfl rfl rfl rfl rfl rfl
  simpa using h

/-- C8: processing is a pure function of the input declaration: two
invocations on the same declaration yield the same generated output or the
same failure, with no state carried between invocations. -/
theorem deterministic (d₁ d₂ : DeriveInput) (h : d₁ = d₂) :
    impl_derefable d₁ = impl_derefable d₂ :=
  congrArg impl_derefable h

theorem deterministic_witness :
    impl_derefable ⟨"Foo", .struct (.named [⟨[.meta (.word "deref")], some "bar", "u32"⟩])⟩ =
      impl_derefable ⟨"Foo", .struct (.named [⟨[.meta (.word "deref")], some "bar", "u32"⟩])⟩ :=
  deterministic
    ⟨"Foo", .struct (.named [⟨[.meta (.word "deref")], some "bar", "u32"⟩])⟩
    ⟨"Foo", .struct (.named [⟨[.meta (.word "deref")], some "bar", "u32"⟩])⟩ rfl

/-- C9: a struct in which a single field carries two or more recognized
markers fails with the same `MultipleDerefFields` error used for markers on
distinct fields (here stated for any field list containing such a field). -/
theorem double_marker_single_field_errors (name : String) (flds : Fields)
    (pre : List Field) (f : Field) (post : List Field)
    (hshape : flds.toList = pre ++ f :: post) (hf : 2 ≤ f.markerCount) :
    impl_derefable ⟨name, .struct flds⟩ = .error .MultipleDerefFields := by
  rw [impl_derefable_go name flds (toList_ne_unit flds pre post f hshape), hshape]
  rw [scanFields_two_markers 0 ⟨none, false⟩ (pre ++ f :: post) rfl
    (by rw [markerTotal_append, markerTotal_cons]; rw [markerCount_def] at hf; omega)]

theorem double_marker_single_field_errors_witness :
    impl_derefable ⟨"D", .struct (.named
        [⟨[.meta (.word "deref"), .meta (.list "deref" [])], some "x", "u8"⟩])⟩ =
      .error .MultipleDerefFields :=
  double_marker_single_field_errors "D"
    (.named [⟨[.meta (.word "deref"), .meta (.list "deref" [])], some "x", "u8"⟩])
    [] ⟨[.meta (.word "deref"), .meta (.list "deref" [])], some "x", "u8"⟩ [] rfl (by decide)

/-! ### Non-marker attributes cannot influence the result (claim C10) -/

theorem scanAttrs_filter (i : Nat) (f : Field) (st : ScanState)
    (attrs : List Attribute) :
    scanAttrs i f st attrs = scanAttrs i f st (attrs.filter Attribute.isMarker) := by
  induction attrs generalizing st with
  | nil => rfl
  | cons a rest ih =>
    cases ha : Attribute.isMarker a with
    | false =>
      rw [List.filter_cons, if_neg (by simp [ha])]
      simp only [scanAttrs, stepAttr_nonmarker i f st a ha]
      exact ih st
    | true =>
      rw [List.filter_cons, if_pos (by simp [ha])]
      simp only [scanAttrs]
      cases hs : stepAttr i f st a with
      | error e => rfl
      | ok st' => exact ih st'

theorem stepAttr_core_sim (i : Nat) (f₁ f₂ : Field) (st₁ st₂ : ScanState) (a : Attribute)
    (hf : f₁.core = f₂.core) (hst : stateCore st₁ = stateCore st₂) :
    (stepAttr i f₁ st₁ a).map stateCore = (stepAttr i f₂ st₂ a).map stateCore := by
  obtain ⟨df₁, m₁⟩ := st₁
  obtain ⟨df₂, m₂⟩ := st₂
  simp only [stateCore] at hst
  have hm : m₁ = m₂ := congrArg Prod.snd hst
  have hdf : df₁.map (fun p => (p.1.core, p.2)) = df₂.map (fun p => (p.1.core, p.2)) :=
    congrArg Prod.fst hst
  subst hm
  cases a with
  | unparsed => simpa [stepAttr, Except.map, stateCore] using hdf
  | meta m =>
    cases m with
    | nameValue id lit => simpa [stepAttr, Except.map, stateCore] using hdf
    | word id =>
      by_cases hid : (id == "deref") = true
      · cases df₁ with
        | none =>
          cases df₂ with
          | none => simp [stepAttr, hid, Except.map, stateCore, hf]
          | some p₂ => simp at hdf
        | some p₁ =>
          cases df₂ with
          | none => simp at hdf
          | some p₂ => simp [stepAttr, hid, Except.map]
      · have hid' : (id == "deref") = false := by simpa using hid
        simpa [stepAttr, hid', Except.map, stateCore] using hdf
    | list id nested =>
      by_cases hid : (id == "deref") = true
      · cases df₁ with
        | none =>
          cases df₂ with
          | none => simp [stepAttr, hid, Except.map, stateCore, hf]
          | some p₂ => simp at hdf
        | some p₁ =>
          cases df₂ with
          | none => simp at hdf
          | some p₂ => simp [stepAttr, hid, Except.map]
      · have hid' : (id == "deref") = false := by simpa using hid
        simpa [stepAttr, hid', Except.map, stateCore] using hdf

theorem scanAttrs_core_sim (i : Nat) (f₁ f₂ : Field) (st₁ st₂ : ScanState)
    (attrs : List Attribute) (hf : f₁.core = f₂.core)
    (hst : stateCore st₁ = stateCore st₂) :
    (scanAttrs i f₁ st₁ attrs).map stateCore = (scanAttrs i f₂ st₂ attrs).map stateCore := by
  induction attrs generalizing st₁ st₂ with
  | nil => simpa [scanAttrs, Except.map] using hst
  | cons a rest ih =>
    have hstep := stepAttr_core_sim i f₁ f₂ st₁ st₂ a hf hst
    cases h₁ : stepAttr i f₁ st₁ a with
    | error e₁ =>
      cases h₂ : stepAttr i f₂ st₂ a with
      | error e₂ =>
        rw [h₁, h₂] at hstep
        simp only [Except.map] at hstep
        simp only [scanAttrs, h₁, h₂, Except.map]
        exact hstep
      | ok s₂ =>
        rw [h₁, h₂] at hstep
        simp [Except.map] at hstep
    | ok s₁ =>
      cases h₂ : stepAttr i f₂ st₂ a with
      | error e₂ =>
        rw [h₁, h₂] at hstep
        simp [Except.map] at hstep
      | ok s₂ =>
        rw [h₁, h₂] at hstep
        simp only [Except.map, Except.ok.injEq] at hstep
        simp only [scanAttrs, h₁, h₂]
        exact ih s₁ s₂ hstep

theorem scanFields_core_sim (i : Nat) (st₁ st₂ : ScanState) (fs₁ fs₂ : List Field)
    (hst : stateCore st₁ = stateCore st₂) (h : List.Forall₂ Field.similar fs₁ fs₂) :
    (scanFields i st₁ fs₁).map stateCore = (scanFields i st₂ fs₂).map stateCore := by
  induction h generalizing i st₁ st₂ with
  | nil => simpa [scanFields, Except.map] using hst
  | @cons f g fs gs hfg hrest ih =>
    obtain ⟨hident, hty, hfilter⟩ := hfg
    have hcore : f.core = g.core := by
      simp [Field.core, hident, hty]
    have hscan : (scanAttrs i f st₁ f.attrs).map stateCore =
        (scanAttrs i g st₂ g.attrs).map stateCore := by
      rw [scanAttrs_filter i f st₁ f.attrs, scanAttrs_filter i g st₂ g.attrs, ← hfilter]
      exact scanAttrs_core_sim i f g st₁ st₂ (f.attrs.filter Attribute.isMarker) hcore hst
    cases h₁ : scanAttrs i f st₁ f.attrs with
    | error e₁ =>
      cases h₂ : scanAttrs i g st₂ g.attrs with
      | error e₂ =>
        rw [h₁, h₂] at hscan
        simp only [Except.map] at hscan
        simp only [scanFields, h₁, h₂, Except.map]
        exact hscan
      | ok s₂ =>
        rw [h₁, h₂] at hscan
        simp [Except.map] at hscan
    | ok s₁ =>
      cases h₂ : scanAttrs i g st₂ g.attrs with
      | error e₂ =>
        rw [h₁, h₂] at hscan
        simp [Except.map] at hscan
      | ok s₂ =>
        rw [h₁, h₂] at hscan
        simp only [Except.map, Except.ok.injEq] at hscan
        simp only [scanFields, h₁, h₂]
        exact ih (i + 1) s₁ s₂ hscan

theorem impl_core_congr (name : String) (flds₁ flds₂ : Fields)
    (h₁ : flds₁ ≠ .unit) (h₂ : flds₂ ≠ .unit)
    (h : List.Forall₂ Field.similar flds₁.toList flds₂.toList) :
    impl_derefable ⟨name, .struct flds₁⟩ = impl_derefable ⟨name, .struct flds₂⟩ := by
  rw [impl_derefable_go name flds₁ h₁, impl_derefable_go name flds₂ h₂]
  have hsim := scanFields_core_sim 0 ⟨none, false⟩ ⟨none, false⟩ flds₁.toList flds₂.toList rfl h
  cases hr₁ : scanFields 0 ⟨none, false⟩ flds₁.toList with
  | error e₁ =>
    cases hr₂ : scanFields 0 ⟨none, false⟩ flds₂.toList with
    | error e₂ =>
      rw [hr₁, hr₂] at hsim
      simp only [Except.map, Except.error.injEq] at hsim
      rw [hsim]
    | ok s₂ =>
      rw [hr₁, hr₂] at hsim
      simp [Except.map] at hsim
  | ok s₁ =>
    cases hr₂ : scanFields 0 ⟨none, false⟩ flds₂.toList with
    | error e₂ =>
      rw [hr₁, hr₂] at hsim
      simp [Except.map] at hsim
    | ok s₂ =>
      rw [hr₁, hr₂] at hsim
      simp only [Except.map, Except.ok.injEq] at hsim
      obtain ⟨df₁, m₁⟩ := s₁
      obtain ⟨df₂, m₂⟩ := s₂
      simp only [stateCore] at hsim
      have hm : m₁ = m₂ := congrArg Prod.snd hsim
      have hdf : df₁.map (fun p => (p.1.core, p.2)) = df₂.map (fun p => (p.1.core, p.2)) :=
        congrArg Prod.fst hsim
      subst hm
      cases df₁ with
      | none =>
        cases df₂ with
        | none => rfl
        | some p₂ => simp at hdf
      | some p₁ =>
        cases df₂ with
        | none => simp at hdf
        | some p₂ =>
          obtain ⟨pf₁, pi₁⟩ := p₁
          obtain ⟨pf₂, pi₂⟩ := p₂
          simp only [Option.map, Option.some.injEq, Prod.mk.injEq, Field.core] at hdf
          obtain ⟨⟨hident, hty⟩, hidx⟩ := hdf
          subst hidx
          simp only [mkAccessor, hident, hty]

/-- C10: attributes that are not recognized deref markers (identifier other
than `deref`, or attributes that fail to parse as structured meta) never
affect the result: two declarations with the same name whose data differ only
in such attributes (`Data.similar`) yield identical generated output or the
identical failure. -/
theorem nonmarker_attrs_irrelevant (d₁ d₂ : DeriveInput)
    (hid : d₁.ident = d₂.ident) (hd : Data.similar d₁.data d₂.data) :
    impl_derefable d₁ = impl_derefable d₂ := by
  obtain ⟨n₁, data₁⟩ := d₁
  obtain ⟨n₂, data₂⟩ := d₂
  simp only at hid hd
  subst hid
  cases data₁ with
  | enum =>
    cases data₂ with
    | enum => rfl
    | union => simp [Data.similar] at hd
    | struct flds₂ => simp [Data.similar] at hd
  | union =>
    cases data₂ with
    | union => rfl
    | enum => simp [Data.similar] at hd
    | struct flds₂ => simp [Data.similar] at hd
  | struct flds₁ =>
    cases data₂ with
    | enum => simp [Data.similar] at hd
    | union => simp [Data.similar] at hd
    | struct flds₂ =>
      simp only [Data.similar] at hd
      cases flds₁ with
      | unit =>
        cases flds₂ with
        | unit => rfl
        | named gs => simp [Fields.similar] at hd
        | unnamed gs => simp [Fields.similar] at hd
      | named fs =>
        cases flds₂ with
        | unit => simp [Fields.similar] at hd
        | unnamed gs => simp [Fields.similar] at hd
        | named gs =>
          simp only [Fields.similar] at hd
          exact impl_core_congr n₁ (.named fs) (.named gs)
            (fun hEq => nomatch hEq) (fun hEq => nomatch hEq) hd
      | unnamed fs =>
        cases flds₂ with
        | unit => simp [Fields.similar] at hd
        | named gs => simp [Fields.similar] at hd
        | unnamed gs =>
          simp only [Fields.similar] at hd
          exact impl_core_congr n₁ (.unnamed fs) (.unnamed gs)
            (fun hEq => nomatch hEq) (fun hEq => nomatch hEq) hd

theorem nonmarker_attrs_irrelevant_witness :
    impl_derefable ⟨"Foo", .struct (.named
        [⟨[.meta (.word "deref"), .meta (.word "serde")], some "bar", "u32"⟩])⟩ =
      impl_derefable ⟨"Foo", .struct (.named
        [⟨[.unparsed, .meta (.word "deref")], some "bar", "u32"⟩])⟩ :=
  nonmarker_attrs_irrelevant
    ⟨"Foo", .struct (.named [⟨[.meta (.word "deref"), .meta (.word "serde")], some "bar", "u32"⟩])⟩
    ⟨"Foo", .struct (.named [⟨[.unparsed, .meta (.word "deref")], some "bar", "u32"⟩])⟩
    rfl (List.Forall₂.cons ⟨rfl, rfl, rfl⟩ List.Forall₂.nil)

end Derefable
